import Mathlib

/-!
Verification of the go-limiter Redis store (`src/store/redis.go`).

The store runs two Lua scripts on the Redis server (`incrementLua`,
`takeTokenLua`) and thin Go client wrappers around them
(`RedisStore.Increment`, `RedisStore.TakeToken`).  We embed the scripts
as pure functions over exact rationals (Lua numbers are modelled by `ℚ`,
Redis integer replies by `ℤ`) and the client wrappers as functions on a
dynamically-typed reply value, with Go's unchecked type assertions
modelled as an explicit `panicked` outcome.
-/

namespace GoLimiter

/-- Token-bucket entry stored per key as a Redis hash with fields
`tokens` and `last_updated` (written by `HSET` in `takeTokenLua`). -/
structure BucketEntry where
  tokens : ℚ
  lastUpdated : ℚ
  deriving Repr, DecidableEq

/-- The constant `local cost = 1` of `takeTokenLua`. -/
def cost : ℚ := 1

/-- The TTL computed at the end of `takeTokenLua`:
`local ttl = math.ceil((burst / rate) * 2); if ttl < 10 then ttl = 10 end`. -/
def ttlCalc (rate burst : ℚ) : ℤ :=
  let ttl := Int.ceil ((burst / rate) * 2)
  if ttl < 10 then 10 else ttl

/-- The refill portion of `takeTokenLua` for a present entry:
`local elapsed = now - last_updated; if elapsed > 0 then
tokens = tokens + elapsed * rate; if tokens > burst then tokens = burst end end`. -/
def refilledTokens (rate burst now : ℚ) (e : BucketEntry) : ℚ :=
  let elapsed := now - e.lastUpdated
  if elapsed > 0 then
    let t := e.tokens + elapsed * rate
    if t > burst then burst else t
  else e.tokens

/-- Everything one `takeTokenLua` execution produces: the reply pair
(`allowed` flag and the token count returned as `tostring(tokens)`),
the entry written back with `HSET`, and the `EXPIRE` ttl in seconds. -/
structure TakeTokenOut where
  allowed : Bool
  tokens : ℚ
  entry : BucketEntry
  ttl : ℤ
  deriving Repr, DecidableEq

/-- The `takeTokenLua` script of `src/store/redis.go` run against the
key's current entry (`none` means `HGETALL` returned an empty table).
Absent key: `tokens = burst - cost; allowed = 1`.  Present key: lazy
refill capped at `burst`, then deduct `cost` when `tokens >= cost`.
In every branch the script persists `(tokens, now)` and sets the ttl. -/
def takeTokenScript (rate burst now : ℚ) (entry : Option BucketEntry) :
    TakeTokenOut :=
  match entry with
  | none =>
      let tokens := burst - cost
      { allowed := true, tokens := tokens,
        entry := ⟨tokens, now⟩, ttl := ttlCalc rate burst }
  | some e =>
      let tokens := refilledTokens rate burst now e
      if tokens ≥ cost then
        { allowed := true, tokens := tokens - cost,
          entry := ⟨tokens - cost, now⟩, ttl := ttlCalc rate burst }
      else
        { allowed := false, tokens := tokens,
          entry := ⟨tokens, now⟩, ttl := ttlCalc rate burst }

/-- One `takeTokenLua` execution against a whole keyed map of entries:
the script touches only `KEYS[1]` and always writes the updated entry
back under that key. -/
def takeTokenOnMap (m : String → Option BucketEntry) (key : String)
    (rate burst now : ℚ) :
    TakeTokenOut × (String → Option BucketEntry) :=
  let out := takeTokenScript rate burst now (m key)
  (out, fun k => if k = key then some out.entry else m k)

/-- Fixed-window counter entry: the Redis string value set by `INCR`
together with its absolute expiry instant (set by `PEXPIRE`).  Keys in
this system always carry an expiry, because the only writer is
`incrementLua`, which sets one on creation. -/
structure CounterEntry where
  value : ℤ
  expiryAt : ℚ
  deriving Repr, DecidableEq

/-- The `incrementLua` script of `src/store/redis.go` run at instant
`now`.  A stored entry whose expiry has passed is treated as absent
(Redis deletes expired keys on access); `INCR` on an absent key yields 1
and `PEXPIRE` then sets the expiry to `now + windowMs`; on a live key
`INCR` adds 1 and, exactly when the result is 1, `PEXPIRE` runs.
Returns the script's reply and the entry left in Redis. -/
def incrementScript (windowMs now : ℚ) (entry : Option CounterEntry) :
    ℤ × CounterEntry :=
  let live : Option CounterEntry :=
    match entry with
    | some e => if now < e.expiryAt then some e else none
    | none => none
  match live with
  | none => (1, ⟨1, now + windowMs⟩)
  | some e =>
      let c := e.value + 1
      if c = 1 then (c, ⟨c, now + windowMs⟩) else (c, ⟨c, e.expiryAt⟩)

/-- Dynamically-typed value carried by go-redis `Script.Run(...).Result()`
(a Go `interface\x7b\x7d`): Redis replies relevant here are integers,
bulk strings and arrays. -/
inductive RedisValue where
  | int (i : ℤ)
  | str (s : String)
  | arr (vs : List RedisValue)
  deriving Repr

/-- Errors visible to the store clients: `backend` stands for any error
returned by go-redis (connection failure, timeout, context
cancellation), `errorExceeded` is the `ratelimiter.ErrorExceeded`
sentinel the package defines. -/
inductive GoError where
  | backend (msg : String)
  | errorExceeded
  deriving Repr, DecidableEq

/-- Outcome of a Go function returning `(value, error)`: a normal return
carrying the value and an optional error, or a runtime panic (from a
failed unchecked type assertion). -/
inductive GoRet (α : Type) where
  | ret (val : α) (err : Option GoError)
  | panicked
  deriving Repr, DecidableEq

/-- Decimal digit value, for the model of `strconv.ParseFloat`. -/
def digitVal (c : Char) : Option ℕ :=
  if '0' ≤ c ∧ c ≤ '9' then some (c.toNat - '0'.toNat) else none

/-- Reads a digit string left to right; `none` on any non-digit. -/
def digitsToNat (cs : List Char) : Option ℕ :=
  cs.foldl (fun acc c => acc.bind fun a => (digitVal c).map fun d => a * 10 + d)
    (some 0)

/-- Model of Go `strconv.ParseFloat` restricted to the plain decimal
strings Lua `tostring` emits: optional minus sign, a non-empty integer
part, optionally a dot and a non-empty fraction.  Anything else
(in particular the empty string or non-numeric text) fails. -/
def parseDecimal (s : String) : Option ℚ :=
  let cs := s.data
  let signed : Bool × List Char :=
    match cs with
    | '-' :: rest => (true, rest)
    | _ => (false, cs)
  let neg := signed.1
  let body := signed.2
  let intPart := body.takeWhile (fun c => c ≠ '.')
  let rest := body.dropWhile (fun c => c ≠ '.')
  if intPart.isEmpty then none
  else
    (digitsToNat intPart).bind fun ip =>
      match rest with
      | [] => some (if neg then -(ip : ℚ) else (ip : ℚ))
      | _ :: frac =>
          if frac.isEmpty then none
          else
            (digitsToNat frac).map fun fp =>
              let q : ℚ := (ip : ℚ) + (fp : ℚ) / (10 : ℚ) ^ frac.length
              if neg then -q else q

/-- Client half of `RedisStore.Increment` (src/store/redis.go lines
115–121) applied to the outcome of `Script.Run`: a run error is returned
as `(0, err)`; otherwise the code performs the unchecked assertion
`res.(int64)`, which panics when the reply is not an integer. -/
def incrementClient (run : Except GoError RedisValue) : GoRet ℤ :=
  match run with
  | .error e => .ret 0 (some e)
  | .ok (.int i) => .ret i none
  | .ok _ => .panicked

/-- Client half of `RedisStore.TakeToken` (src/store/redis.go lines
136–155) applied to the outcome of `Script.Run`.  A run error returns
`(false, 0, err)`.  A reply that is not an array, or an array of fewer
than two elements, returns `(false, 0, ratelimiter.ErrorExceeded)`.
Otherwise `arr[0].(int64)` is an unchecked assertion (panics on
non-integer), `arr[1].(string)` uses the comma-ok form (yields `""` on
non-string), and the `strconv.ParseFloat` error is discarded (yields 0
on parse failure). -/
def takeTokenClient (run : Except GoError RedisValue) : GoRet (Bool × ℚ) :=
  match run with
  | .error e => .ret (false, 0) (some e)
  | .ok res =>
      match res with
      | .arr (v0 :: v1 :: _) =>
          match v0 with
          | .int i =>
              let s := match v1 with
                | .str s => s
                | _ => ""
              .ret (i == 1, (parseDecimal s).getD 0) none
          | _ => .panicked
      | _ => .ret (false, 0) (some .errorExceeded)

/-- Spec-side restatement of the claimed `TakeToken` behaviour, written
from the spec's words for comparison with `takeTokenScript`: an absent
key is treated as `tokens = burst`, `lastUpdated = now`; then
`elapsed = now - lastUpdated`; if `elapsed > 0`, tokens refill to
`min(burst, tokens + elapsed * rate)`; if and only if `tokens ≥ 1`, one
token is deducted and the call is allowed. -/
def takeTokenSpecSide (rate burst now : ℚ) (entry : Option BucketEntry) :
    Bool × ℚ :=
  let stored : ℚ × ℚ :=
    match entry with
    | none => (burst, now)
    | some e => (e.tokens, e.lastUpdated)
  let tokens0 := stored.1
  let last := stored.2
  let elapsed := now - last
  let tokens1 := if elapsed > 0 then min burst (tokens0 + elapsed * rate) else tokens0
  if tokens1 ≥ 1 then (true, tokens1 - 1) else (false, tokens1)

/-- Range invariant of a stored token-bucket entry. -/
def inBucketRange (burst : ℚ) (e : BucketEntry) : Prop :=
  0 ≤ e.tokens ∧ e.tokens ≤ burst

/-- Trace of a sequence of `takeTokenLua` executions on one key: each
call runs at the next instant in `times` and the entry it persists is
the state the following call reads. -/
def takeTokenTrace (rate burst : ℚ) :
    Option BucketEntry → List ℚ → List TakeTokenOut
  | _, [] => []
  | st, t :: ts =>
      let out := takeTokenScript rate burst t st
      out :: takeTokenTrace rate burst (some out.entry) ts

theorem refilled_eq_min (rate burst now : ℚ) (e : BucketEntry) :
    refilledTokens rate burst now e =
      if now - e.lastUpdated > 0
      then min burst (e.tokens + (now - e.lastUpdated) * rate)
      else e.tokens := by
  simp only [refilledTokens]
  split_ifs with h hcap
  · exact (min_eq_left hcap.le).symm
  · exact (min_eq_right (not_lt.mp hcap)).symm
  · rfl

/-- Claim C1: for every rate > 0 and burst ≥ 1, one `takeTokenLua`
execution returns exactly the (allowed, tokens) pair the spec describes:
an absent key is treated as (burst, now); tokens lazily refill to
min(burst, tokens + elapsed * rate) when elapsed > 0; one token is
deducted and the call allowed exactly when tokens ≥ 1.  In particular
the first call on a never-seen key is allowed with burst - 1 remaining. -/
theorem claim1_takeToken_matches_spec (rate burst now : ℚ)
    (entry : Option BucketEntry) (hr : 0 < rate) (hb : 1 ≤ burst) :
    ((takeTokenScript rate burst now entry).allowed,
        (takeTokenScript rate burst now entry).tokens)
      = takeTokenSpecSide rate burst now entry
    ∧ (takeTokenScript rate burst now none).allowed = true
    ∧ (takeTokenScript rate burst now none).tokens = burst - 1 := by
  refine ⟨?_, rfl, rfl⟩
  cases entry with
  | none =>
      simp only [takeTokenScript, takeTokenSpecSide, cost]
      rw [sub_self, if_neg (lt_irrefl 0), if_pos hb]
  | some e =>
      have hrf := refilled_eq_min rate burst now e
      simp only [takeTokenScript, takeTokenSpecSide, cost, ← hrf]
      split_ifs <;> rfl

/-- Witness for claim C1 at rate 1, burst 3, now 5, a stored entry
(tokens 2, last updated 3) and a never-seen key. -/
theorem claim1_witness :
    ((takeTokenScript 1 3 5 (some ⟨2, 3⟩)).allowed,
        (takeTokenScript 1 3 5 (some ⟨2, 3⟩)).tokens)
      = takeTokenSpecSide 1 3 5 (some ⟨2, 3⟩)
    ∧ (takeTokenScript 1 3 5 none).allowed = true
    ∧ (takeTokenScript 1 3 5 none).tokens = (3 : ℚ) - 1 :=
  claim1_takeToken_matches_spec 1 3 5 (some ⟨2, 3⟩) (by decide) (by decide)

/-- Claim C2: `incrementLua` returns the post-increment counter value, 1
on a never-seen key; exactly when the post-increment value is 1 it sets
the key's expiry to now + window, and an increment on a live key (value
at least 1, expiry in the future) leaves the expiry unchanged. -/
theorem claim2_increment_fixed_window (w now : ℚ) (e : CounterEntry)
    (hv : 1 ≤ e.value) (hl : now < e.expiryAt) :
    incrementScript w now none = (1, ⟨1, now + w⟩)
    ∧ incrementScript w now (some e)
        = (e.value + 1, ⟨e.value + 1, e.expiryAt⟩) := by
  refine ⟨rfl, ?_⟩
  simp only [incrementScript, if_pos hl]
  rw [if_neg (by omega)]

/-- Witness for claim C2 at window 100, now 5, stored entry (value 2,
expiry 50). -/
theorem claim2_witness :
    incrementScript 100 5 none = (1, ⟨1, (5 : ℚ) + 100⟩)
    ∧ incrementScript 100 5 (some ⟨2, 50⟩)
        = ((2 : ℤ) + 1, ⟨(2 : ℤ) + 1, 50⟩) :=
  claim2_increment_fixed_window 100 5 ⟨2, 50⟩ (by decide) (by decide)

/-- Claim C5: when `Script.Run` fails, `Increment` returns (0, err) and
`TakeToken` returns (false, 0, err), the backend's error unchanged, with
no retry, fallback or fabricated outcome. -/
theorem claim5_backend_error_passthrough (e : GoError) :
    incrementClient (Except.error e) = GoRet.ret 0 (some e)
    ∧ takeTokenClient (Except.error e) = GoRet.ret (false, 0) (some e) :=
  ⟨rfl, rfl⟩

theorem takeToken_ttl_eq (rate burst now : ℚ) (st : Option BucketEntry) :
    (takeTokenScript rate burst now st).ttl = ttlCalc rate burst := by
  cases st with
  | none => rfl
  | some e =>
      simp only [takeTokenScript]
      split_ifs <;> rfl

theorem takeToken_entry_last (rate burst now : ℚ) (st : Option BucketEntry) :
    (takeTokenScript rate burst now st).entry.lastUpdated = now := by
  cases st with
  | none => rfl
  | some e =>
      simp only [takeTokenScript]
      split_ifs <;> rfl

theorem ttlCalc_ge_ten (rate burst : ℚ) : 10 ≤ ttlCalc rate burst := by
  simp only [ttlCalc]
  split_ifs with h
  · exact le_refl 10
  · omega

/-- Claim C7: every `takeTokenLua` execution, allowed or denied, sets
the key's expiry to exactly max(10, ceil(2 * burst / rate)) seconds. -/
theorem claim7_ttl_formula (rate burst now : ℚ) (st : Option BucketEntry)
    (hr : 0 < rate) (hb : 1 ≤ burst) :
    (takeTokenScript rate burst now st).ttl
      = max 10 ⌈2 * burst / rate⌉ := by
  rw [takeToken_ttl_eq]
  simp only [ttlCalc]
  have h2 : (burst / rate) * 2 = 2 * burst / rate := by ring
  rw [h2]
  rcases le_or_lt 10 ⌈2 * burst / rate⌉ with h | h
  · rw [if_neg (not_lt.mpr h), max_eq_right h]
  · rw [if_pos h, max_eq_left h.le]

/-- Witness for claim C7 at rate 1, burst 3, now 0, absent key. -/
theorem claim7_witness :
    (takeTokenScript 1 3 0 none).ttl = max 10 ⌈(2 : ℚ) * 3 / 1⌉ :=
  claim7_ttl_formula 1 3 0 none (by decide) (by decide)

/-- Claim C9: every `takeTokenLua` execution, denied ones included,
writes the key's entry back with lastUpdated = now and re-arms the
expiry (the ttl is always at least 10), and it touches no other key. -/
theorem claim9_denied_calls_persist (m : String → Option BucketEntry)
    (key k : String) (rate burst now : ℚ) (hk : k ≠ key) :
    (takeTokenOnMap m key rate burst now).2 key
        = some (takeTokenOnMap m key rate burst now).1.entry
    ∧ (takeTokenOnMap m key rate burst now).1.entry.lastUpdated = now
    ∧ 10 ≤ (takeTokenOnMap m key rate burst now).1.ttl
    ∧ (takeTokenOnMap m key rate burst now).2 k = m k := by
  refine ⟨?_, ?_, ?_, ?_⟩
  · simp [takeTokenOnMap]
  · exact takeToken_entry_last rate burst now (m key)
  · rw [show (takeTokenOnMap m key rate burst now).1 =
        takeTokenScript rate burst now (m key) from rfl,
      takeToken_ttl_eq]
    exact ttlCalc_ge_ten rate burst
  · simp only [takeTokenOnMap, if_neg hk]

/-- Witness for claim C9 on an empty store, key "a", other key "b". -/
theorem claim9_witness :
    (takeTokenOnMap (fun _ => none) "a" 1 1 0).2 "a"
        = some (takeTokenOnMap (fun _ => none) "a" 1 1 0).1.entry
    ∧ (takeTokenOnMap (fun _ => none) "a" 1 1 0).1.entry.lastUpdated = 0
    ∧ 10 ≤ (takeTokenOnMap (fun _ => none) "a" 1 1 0).1.ttl
    ∧ (takeTokenOnMap (fun _ => none) "a" 1 1 0).2 "b"
        = (fun _ => none : String → Option BucketEntry) "b" :=
  claim9_denied_calls_persist (fun _ => none) "a" "b" 1 1 0 (by decide)

/-- Claim C10: when `takeTokenLua` denies, the token count it returns is
strictly below 1; when it allows, either the key was absent or the
post-refill token count before deduction was at least 1. -/
theorem claim10_allowed_iff_tokens (rate burst now : ℚ)
    (st : Option BucketEntry) (hr : 0 < rate) (hb : 1 ≤ burst) :
    ((takeTokenScript rate burst now st).allowed = false →
        (takeTokenScript rate burst now st).tokens < 1)
    ∧ ((takeTokenScript rate burst now st).allowed = true →
        st = none
        ∨ ∃ e, st = some e ∧ 1 ≤ refilledTokens rate burst now e) := by
  cases st with
  | none =>
      refine ⟨?_, fun _ => Or.inl rfl⟩
      intro h
      simp only [takeTokenScript] at h
      exact absurd h (by simp)
  | some e =>
      simp only [takeTokenScript, cost]
      split_ifs with hge
      · refine ⟨?_, fun _ => Or.inr ⟨e, rfl, hge⟩⟩
        intro h
        exact absurd h (by simp)
      · refine ⟨fun _ => not_le.mp hge, ?_⟩
        intro h
        exact absurd h (by simp)

/-- Witness for claim C10 at rate 1, burst 1, now 0, a stored entry with
zero tokens last updated at 0: the call is denied with tokens below 1. -/
theorem claim10_witness :
    ((takeTokenScript 1 1 0 (some ⟨0, 0⟩)).allowed = false →
        (takeTokenScript 1 1 0 (some ⟨0, 0⟩)).tokens < 1)
    ∧ ((takeTokenScript 1 1 0 (some ⟨0, 0⟩)).allowed = true →
        (some ⟨0, 0⟩ : Option BucketEntry) = none
        ∨ ∃ e, (some ⟨0, 0⟩ : Option BucketEntry) = some e
            ∧ 1 ≤ refilledTokens 1 1 0 e) :=
  claim10_allowed_iff_tokens 1 1 0 (some ⟨0, 0⟩) (by decide) (by decide)

theorem refilled_range (rate burst now : ℚ) (e : BucketEntry)
    (hr : 0 < rate) (hb : 1 ≤ burst) (he : inBucketRange burst e) :
    0 ≤ refilledTokens rate burst now e
      ∧ refilledTokens rate burst now e ≤ burst := by
  obtain ⟨h0, h1⟩ := he
  simp only [refilledTokens]
  split_ifs with hel hcap
  · exact ⟨by linarith, le_refl burst⟩
  · have hpr : 0 < (now - e.lastUpdated) * rate := mul_pos hel hr
    exact ⟨by linarith, not_lt.mp hcap⟩
  · exact ⟨h0, h1⟩

theorem takeToken_step_range (rate burst now : ℚ) (st : Option BucketEntry)
    (hr : 0 < rate) (hb : 1 ≤ burst)
    (hst : ∀ e, st = some e → inBucketRange burst e) :
    0 ≤ (takeTokenScript rate burst now st).tokens
    ∧ (takeTokenScript rate burst now st).tokens ≤ burst
    ∧ inBucketRange burst (takeTokenScript rate burst now st).entry := by
  cases st with
  | none =>
      simp only [takeTokenScript, cost, inBucketRange]
      refine ⟨?_, ?_, ?_, ?_⟩ <;> simp <;> linarith
  | some e =>
      obtain ⟨hr0, hr1⟩ := refilled_range rate burst now e hr hb (hst e rfl)
      simp only [takeTokenScript, cost, inBucketRange]
      split_ifs with hge
      · refine ⟨?_, ?_, ?_, ?_⟩ <;> simp <;> linarith
      · exact ⟨hr0, hr1, hr0, hr1⟩

theorem takeTokenTrace_cons (rate burst t : ℚ) (ts : List ℚ)
    (st : Option BucketEntry) :
    takeTokenTrace rate burst st (t :: ts)
      = takeTokenScript rate burst t st
          :: takeTokenTrace rate burst
              (some (takeTokenScript rate burst t st).entry) ts := rfl

/-- Claim C4: for rate > 0 and burst ≥ 1, along any finite sequence of
`takeTokenLua` calls on one key whose call instants never fall below the
stored lastUpdated, every returned token count and every persisted token
count stays within [0, burst]. -/
theorem claim4_tokens_stay_in_range (rate burst : ℚ) (times : List ℚ)
    (st : Option BucketEntry) (hr : 0 < rate) (hb : 1 ≤ burst)
    (hst : ∀ e, st = some e → inBucketRange burst e)
    (hmono : List.Chain' (· ≤ ·) times)
    (hfirst : ∀ e t, st = some e → times.head? = some t →
      e.lastUpdated ≤ t) :
    ∀ out ∈ takeTokenTrace rate burst st times,
      0 ≤ out.tokens ∧ out.tokens ≤ burst ∧ inBucketRange burst out.entry := by
  induction times generalizing st with
  | nil =>
      intro out h
      simp [takeTokenTrace] at h
  | cons t ts ih =>
      intro out hmem
      rw [takeTokenTrace_cons, List.mem_cons] at hmem
      obtain rfl | hmem := hmem
      · exact takeToken_step_range rate burst t st hr hb hst
      · refine ih (some (takeTokenScript rate burst t st).entry)
          ?_ hmono.tail ?_ out hmem
        · intro e he
          injection he with he
          rw [← he]
          exact (takeToken_step_range rate burst t st hr hb hst).2.2
        · intro e tt he hh
          injection he with he
          rw [← he, takeToken_entry_last]
          cases ts with
          | nil => simp at hh
          | cons t2 ts2 =>
              simp only [List.head?] at hh
              injection hh with hh
              rw [← hh]
              exact (List.chain'_cons.mp hmono).1

/-- Witness for claim C4: the first call of the trace at rate 1,
burst 3, instants [0, 2], starting from a never-seen key. -/
theorem claim4_witness :
    0 ≤ (takeTokenScript 1 3 0 none).tokens
    ∧ (takeTokenScript 1 3 0 none).tokens ≤ 3
    ∧ inBucketRange 3 (takeTokenScript 1 3 0 none).entry :=
  claim4_tokens_stay_in_range 1 3 [0, 2] none (by decide) (by decide)
    (fun e he => Option.noConfusion he)
    (List.chain'_cons.mpr ⟨by decide, List.chain'_singleton 2⟩)
    (fun e t he _ => Option.noConfusion he)
    (takeTokenScript 1 3 0 none) (List.mem_cons_self _ _)

/-- Claim C6 counterexample: a reply array whose second element is not a
string makes `TakeToken` return the guessed token count 0 with no error
at all, and a too-short reply array makes it return
`ratelimiter.ErrorExceeded` — the limit-exceeded sentinel — rather than
an invalid-response error. -/
theorem claim6_counterexample :
    takeTokenClient
        (Except.ok (RedisValue.arr [RedisValue.int 1, RedisValue.int 7]))
      = GoRet.ret (true, 0) none
    ∧ takeTokenClient (Except.ok (RedisValue.arr []))
      = GoRet.ret (false, 0) (some GoError.errorExceeded) :=
  ⟨rfl, rfl⟩

/-- Claim C6 as amended: on a reply that is not an array, or an array of
fewer than two elements, `TakeToken` returns (false, 0,
ratelimiter.ErrorExceeded), reusing the limit-exceeded sentinel instead
of an invalid-response error; on an array whose first element is not an
integer it panics (unchecked type assertion); on an array whose second
element fails to parse as a decimal it silently returns token count 0
with no error; `Increment` panics on any non-integer reply. -/
theorem claim6_amended (vs : List RedisValue) (i : ℤ) (s : String)
    (v0 v1 w : RedisValue) (rest : List RedisValue)
    (hlen : vs.length < 2) (hv0 : ∀ j, v0 ≠ RedisValue.int j)
    (hs : parseDecimal s = none) (hw : ∀ j, w ≠ RedisValue.int j) :
    takeTokenClient (Except.ok (RedisValue.arr vs))
        = GoRet.ret (false, 0) (some GoError.errorExceeded)
    ∧ takeTokenClient (Except.ok (RedisValue.int i))
        = GoRet.ret (false, 0) (some GoError.errorExceeded)
    ∧ takeTokenClient (Except.ok (RedisValue.str s))
        = GoRet.ret (false, 0) (some GoError.errorExceeded)
    ∧ takeTokenClient (Except.ok (RedisValue.arr (v0 :: v1 :: rest)))
        = GoRet.panicked
    ∧ takeTokenClient
          (Except.ok (RedisValue.arr
            (RedisValue.int i :: RedisValue.str s :: rest)))
        = GoRet.ret (i == 1, 0) none
    ∧ incrementClient (Except.ok w) = GoRet.panicked := by
  refine ⟨?_, rfl, rfl, ?_, ?_, ?_⟩
  · match vs with
    | [] => rfl
    | [v] => rfl
    | v :: v2 :: rest2 =>
        simp only [List.length_cons] at hlen
        omega
  · match v0, hv0 with
    | RedisValue.int j, hv0 => exact absurd rfl (hv0 j)
    | RedisValue.str _, _ => rfl
    | RedisValue.arr _, _ => rfl
  · simp only [takeTokenClient, hs]
    rfl
  · match w, hw with
    | RedisValue.int j, hw => exact absurd rfl (hw j)
    | RedisValue.str _, _ => rfl
    | RedisValue.arr _, _ => rfl

/-- Witness for the amended claim C6 at concrete malformed replies. -/
theorem claim6_amended_witness :
    takeTokenClient (Except.ok (RedisValue.arr []))
        = GoRet.ret (false, 0) (some GoError.errorExceeded)
    ∧ takeTokenClient (Except.ok (RedisValue.int 0))
        = GoRet.ret (false, 0) (some GoError.errorExceeded)
    ∧ takeTokenClient (Except.ok (RedisValue.str "abc"))
        = GoRet.ret (false, 0) (some GoError.errorExceeded)
    ∧ takeTokenClient
          (Except.ok (RedisValue.arr [RedisValue.str "x", RedisValue.int 0]))
        = GoRet.panicked
    ∧ takeTokenClient
          (Except.ok (RedisValue.arr
            [RedisValue.int 0, RedisValue.str "abc"]))
        = GoRet.ret ((0 : ℤ) == 1, 0) none
    ∧ incrementClient (Except.ok (RedisValue.str "x")) = GoRet.panicked :=
  claim6_amended [] 0 "abc" (RedisValue.str "x") (RedisValue.int 0)
    (RedisValue.str "x") [] (by decide)
    (fun j h => RedisValue.noConfusion h) rfl
    (fun j h => RedisValue.noConfusion h)

end GoLimiter
